import Mathlib

/-!
Verification of the marclite codec layer (src/engine/marclite).

Python strings are modelled as lists of characters (`Str`), bytes as lists
of naturals.  The functions below are direct translations of
`src/engine/marclite/mrk.py` and `src/engine/marclite/formats.py`.
External collaborators (the `pymarc` library, the Python UTF-8 decoder)
are modelled as parameters or abstract inputs where noted.
-/

/-- Python strings as ordered character sequences. -/
abbrev Str := List Char

/-- Characters stripped by Python `str.strip()` (ASCII whitespace subset;
the source data never contains the remaining Unicode whitespace). -/
def isPySpace (c : Char) : Bool :=
  c == ' ' || c == '\t' || c == '\n' || c == '\r' || c == '\x0b' || c == '\x0c'

/-- Python `str.lstrip()`. -/
def pyLstrip (s : Str) : Str := s.dropWhile isPySpace

/-- Python `str.rstrip()`. -/
def pyRstrip (s : Str) : Str := (s.reverse.dropWhile isPySpace).reverse

/-- Python `str.strip()`. -/
def pyStrip (s : Str) : Str := pyRstrip (pyLstrip s)

/-- Python `str.rstrip("\n")` (used on lines that already lack `\n`). -/
def rstripNL (s : Str) : Str := (s.reverse.dropWhile (· == '\n')).reverse

/-- Boolean string prefix test, Python `str.startswith`. -/
def leadsStr : Str → Str → Bool
  | [], _ => true
  | _ :: _, [] => false
  | a :: as, b :: bs => a == b && leadsStr as bs

/-- Python `needle in haystack` substring containment (`hasSubstr haystack needle`). -/
def hasSubstr : Str → Str → Bool
  | [], t => t.isEmpty
  | c :: rest, t => leadsStr t (c :: rest) || hasSubstr rest t

/-- Python `str.lower()` (ASCII case folding; extensions are ASCII). -/
def strLower (s : Str) : Str := s.map Char.toLower

/-- Python `str.splitlines()` for the `\n`, `\r\n` and `\r` terminators
(the ones the mrk writer and ordinary text files produce); a trailing
terminator yields no empty final line, like the Python original. -/
def pySplitlinesAux : Str → Str → List Str
  | [], [] => []
  | [], cur => [cur.reverse]
  | '\r' :: '\n' :: rest, cur => cur.reverse :: pySplitlinesAux rest []
  | '\r' :: rest, cur => cur.reverse :: pySplitlinesAux rest []
  | '\n' :: rest, cur => cur.reverse :: pySplitlinesAux rest []
  | c :: rest, cur => pySplitlinesAux rest (c :: cur)

/-- Python `str.splitlines()`. -/
def pySplitlines (s : Str) : List Str := pySplitlinesAux s []

/-- Python `str.split(sep)` for a one-character separator: splits at every
occurrence and keeps empty chunks, `"".split` giving `[""]`. -/
def splitOnChar (sep : Char) : Str → List Str
  | [] => [[]]
  | c :: rest =>
    if c == sep then [] :: splitOnChar sep rest
    else
      match splitOnChar sep rest with
      | [] => [[c]]
      | h :: t => (c :: h) :: t

/-- Python slice `l[0::2]`: every other element starting at index 0. -/
def stepTwo : List α → List α
  | [] => []
  | [x] => [x]
  | x :: _ :: rest => x :: stepTwo rest

/-- Python `zip(l[0::2], l[1::2])` as used by the mrk writer to pair
subfield codes with values (it truncates at the shorter slice). -/
def zipPairs (l : List Str) : List (Str × Str) :=
  (stepTwo l).zip (stepTwo (l.drop 1))

/-- Decimal rendering of a natural, Python `str(idx)` inside f-strings. -/
def natStr (n : Nat) : Str := (Nat.repr n).data

/-- The record model of `pymarc` as used by `mrk.py` (spec section 3): a
field is a control field (tag, raw data) or a data field (tag, two
indicator characters, flattened subfield list `[code, value, ...]` exactly
as `mrk.py` builds it). -/
inductive MarcField
  | control (tag : Str) (data : Str)
  | data (tag : Str) (ind1 ind2 : Char) (subfields : List Str)
  deriving DecidableEq, Repr

/-- A bibliographic record: leader plus ordered field list. -/
structure Record where
  leader : Str
  fields : List MarcField
  deriving DecidableEq, Repr

/-- Modelled from pymarc: the leader a fresh `Record()` carries before any
`=LDR` line assigns one (24 blanks). -/
def pymarcDefaultLeader : Str := List.replicate 24 ' '

/-- ASCII approximation of the regex class `\w` used by `TAG_RE = ^=(\w{3})`
in `mrk.py` (every tag the spec mentions is ASCII alphanumeric). -/
def isWordChar (c : Char) : Bool := c.isAlphanum || c == '_'

/-- Python `rest = rest[1:] if rest.startswith(" ") else rest` from
`parse_mrk_record` (`mrk.py` lines 44-45): at most one leading space is
consumed after the tag token. -/
def dropOneSpace : Str → Str
  | ' ' :: r => r
  | r => r

/-- One chunk of `subfield_data.split("$")` in `parse_mrk_record`: an empty
chunk is skipped, otherwise the first character is the code and the rest
the value, extending the flat subfield list. -/
def chunkPairs : Str → List Str
  | [] => []
  | c :: v => [[c], v]

/-- The subfield loop of `parse_mrk_record` (`mrk.py` lines 63-69). -/
def parseSubfields (s : Str) : List Str :=
  (splitOnChar '$' s).foldl (fun acc chunk => acc ++ chunkPairs chunk) []

/-- Mutable state of `parse_mrk_record`: the record under construction and
the `seen_field` flag. -/
structure MrkAcc where
  leader : Str
  fields : List MarcField
  seenField : Bool
  deriving DecidableEq, Repr

/-- One iteration of the line loop of `parse_mrk_record` (`mrk.py` lines
36-71), faithful to the order of checks: `startswith("=")`, `TAG_RE`,
`tag == "LDR"`, `tag.startswith("00")`, then the indicator/subfield path. -/
def parseMrkLineStep (acc : MrkAcc) (line : Str) : Except Str MrkAcc :=
  if leadsStr ['='] line then
    match line with
    | '=' :: t1 :: t2 :: t3 :: rest0 =>
      if isWordChar t1 && isWordChar t2 && isWordChar t3 then
        if ([t1, t2, t3] : Str) = ['L', 'D', 'R'] then
          .ok ⟨pyStrip (dropOneSpace rest0), acc.fields, true⟩
        else if leadsStr ['0', '0'] [t1, t2, t3] then
          .ok ⟨acc.leader,
               acc.fields ++ [.control [t1, t2, t3] (pyStrip (dropOneSpace rest0))], true⟩
        else
          match dropOneSpace rest0 with
          | i1 :: i2 :: subs =>
            .ok ⟨acc.leader,
                 acc.fields ++ [.data [t1, t2, t3] i1 i2 (parseSubfields subs)], true⟩
          | _ => .error ("Missing indicators for tag ".data ++ [t1, t2, t3])
      else .error ("Invalid MRK tag: ".data ++ line)
    | _ => .error ("Invalid MRK tag: ".data ++ line)
  else .error ("Invalid MRK line: ".data ++ line)

/-- The line loop of `parse_mrk_record`, threading the accumulator. -/
def processMrkLines (acc : MrkAcc) : List Str → Except Str MrkAcc
  | [] => .ok acc
  | l :: rest =>
    match parseMrkLineStep acc l with
    | .error e => .error e
    | .ok acc2 => processMrkLines acc2 rest

/-- Function `parse_mrk_record` (`mrk.py` lines 32-76): parse one blank-line-free
block into a record, failing if no leader/control/data line was seen. -/
def parse_mrk_record (lines : List Str) : Except Str Record :=
  match processMrkLines ⟨pymarcDefaultLeader, [], false⟩ lines with
  | .error e => .error e
  | .ok acc =>
    if acc.seenField then .ok ⟨acc.leader, acc.fields⟩
    else .error "Record contained no MARC fields.".data

/-- Block construction loop of `parse_mrk_records` (`mrk.py` lines 13-23):
a blank line flushes the current block, other lines are appended after
`rstrip("\n")`. -/
def buildBlocksAux : List Str → List Str → List (List Str)
  | [], [] => []
  | [], cur => [cur.reverse]
  | l :: rest, cur =>
    if pyStrip l = [] then
      if cur = [] then buildBlocksAux rest []
      else cur.reverse :: buildBlocksAux rest []
    else buildBlocksAux rest (rstripNL l :: cur)

/-- The blocks of non-blank lines of a mnemonic-text input. -/
def buildBlocks (lines : List Str) : List (List Str) := buildBlocksAux lines []

/-- Left-to-right effectful map, the `list(generator)` forcing of
`parse_mrk_records`: the first failing block aborts the whole parse. -/
def mapExcept (f : α → Except ε β) : List α → Except ε (List β)
  | [] => .ok []
  | a :: rest =>
    match f a with
    | .error e => .error e
    | .ok b =>
      match mapExcept f rest with
      | .error e => .error e
      | .ok bs => .ok (b :: bs)

/-- Function `parse_mrk_records` (`mrk.py` lines 12-29): split into blocks, fail on
zero blocks, otherwise parse every block. -/
def parse_mrk_records (text : Str) : Except Str (List Record) :=
  if (buildBlocks (pySplitlines text)).isEmpty then
    .error "No MRK records found.".data
  else mapExcept parse_mrk_record (buildBlocks (pySplitlines text))

/-- The `"".join(f"${code}{value}" ...)` expression of `write_mrk_records`
(`mrk.py` lines 89-91). -/
def writeSubfields (subs : List Str) : Str :=
  (zipPairs subs).foldl (fun acc cv => acc ++ '$' :: (cv.1 ++ cv.2)) []

/-- One field line of `write_mrk_records` (`mrk.py` lines 84-92): control
fields as `=TAG␣␣data`, data fields as `=TAG␣␣I1I2$c value...`.  In this
model a data field always carries its two indicator characters, so the
fallback of the writer to a blank indicator for a short list cannot trigger. -/
def writeField : MarcField → Str
  | .control tag d => '=' :: (tag ++ ' ' :: ' ' :: d)
  | .data tag i1 i2 subs => '=' :: (tag ++ ' ' :: ' ' :: i1 :: i2 :: writeSubfields subs)

/-- Python `"\n".join(lines)`. -/
def joinNL : List Str → Str
  | [] => []
  | [l] => l
  | l :: rest => l ++ '\n' :: joinNL rest

/-- Function `write_mrk_records` (`mrk.py` lines 79-94): leader line, one line per
field, a blank separator line per record, joined, right-stripped, plus a
final newline. -/
def write_mrk_records (records : List Record) : Str :=
  let lines : List Str := (records.map fun r =>
    ("=LDR  ".data ++ r.leader) :: (r.fields.map writeField ++ [[]])).flatten
  pyRstrip (joinNL lines) ++ ['\n']

/-- Python `bytes.isdigit` on one byte: ASCII `0`-`9`. -/
def isDigitByte (b : Nat) : Bool := decide (48 ≤ b ∧ b ≤ 57)

/-- Python `bytes.isdigit()`: non-empty and all ASCII digits. -/
def bytesIsdigit (l : List Nat) : Bool := !l.isEmpty && l.all isDigitByte

/-- The XML content rule of `detect_format` (`formats.py` line 41): the
left-stripped sample starts with `<?xml`, or the first 500 characters
contain `<record`. -/
def xmlRule (textSample : Str) : Bool :=
  leadsStr "<?xml".data (pyLstrip textSample) ||
    hasSubstr (textSample.take 500) "<record".data

/-- The binary content rule of `detect_format` (`formats.py` line 44):
sample longer than 6 bytes, first five bytes ASCII digits, and the
record-terminator byte 0x1D present. -/
def mrcRule (sample : List Nat) : Bool :=
  decide (6 < sample.length) && bytesIsdigit (sample.take 5) && sample.contains 29

/-- One line of the mnemonic-text content rule (`formats.py` line 48):
`line.startswith("=LDR")` or the unanchored regex `^=\d{3}` matches, i.e.
the line starts with `=` followed by three ASCII digits. -/
def mrkLineTest (l : Str) : Bool :=
  leadsStr "=LDR".data l ||
    (match l with
     | e :: a :: b :: c :: _ => e == '=' && a.isDigit && b.isDigit && c.isDigit
     | _ => false)

/-- The mnemonic-text content rule of `detect_format` (`formats.py` lines
47-49): some of the first 20 lines passes `mrkLineTest`. -/
def mrkRule (textSample : Str) : Bool :=
  ((pySplitlines textSample).take 20).any mrkLineTest

/-- Function `detect_format` (`formats.py` lines 24-51).  `suffix` is
`path.suffix`; `sample` the first 2048 bytes of the file; `decode` stands
for the Python `bytes.decode("utf-8", errors="ignore")`, which is runtime
machinery rather than repository code, so it is kept abstract.  The error
value omits the interpolated file name of the original message. -/
def detect_format (decode : List Nat → Str) (suffix : Str) (sample : List Nat) :
    Except Str Str :=
  if strLower suffix = ".xml".data then .ok "marcxml".data
  else if strLower suffix = ".mrk".data ∨ strLower suffix = ".txt".data then .ok "mrk".data
  else if strLower suffix = ".mrc".data then .ok "mrc".data
  else if xmlRule (decode sample) then .ok "marcxml".data
  else if mrcRule sample then .ok "mrc".data
  else if mrkRule (decode sample) then .ok "mrk".data
  else .error "Unable to detect MARC format.".data

/-- A concrete instance of the abstract decoder, agreeing with the Python
`decode("utf-8", errors="ignore")` on ASCII byte samples. -/
def asciiDecode (bs : List Nat) : Str := bs.map Char.ofNat

/-- The result aggregate of `read_records` (`formats.py` lines 17-21). -/
structure ReadResult where
  records : List Record
  warnings : List Str
  dropped : Nat
  deriving DecidableEq, Repr

/-- The warning string `f"Dropped record {idx}: {exc}"` of `read_records`
(`formats.py` line 70); a `None` yield raises `ValueError("Empty record")`. -/
def mrcWarning (idx : Nat) : Str :=
  "Dropped record ".data ++ natStr idx ++ ": Empty record".data

/-- The `for idx, record in enumerate(reader, start=1)` loop of the binary
branch of `read_records` (`formats.py` lines 63-70), over the sequence of
yields of the external `MARCReader` (`none` models a malformed or empty
record, for which pymarc yields `None`). -/
def mrcLoop : Nat → List (Option Record) → List Record × List Str × Nat
  | _, [] => ([], [], 0)
  | idx, some r :: rest =>
    let p := mrcLoop (idx + 1) rest
    (r :: p.1, p.2.1, p.2.2)
  | idx, none :: rest =>
    let p := mrcLoop (idx + 1) rest
    (p.1, mrcWarning idx :: p.2.1, p.2.2 + 1)

/-- The binary (`mrc`) branch of `read_records` (`formats.py` lines 60-71). -/
def read_records_mrc (yields : List (Option Record)) : ReadResult :=
  let p := mrcLoop 1 yields
  ⟨p.1, p.2.1, p.2.2⟩

/-- The `marcxml` branch of `read_records` (`formats.py` lines 73-78);
`parsed` is the outcome of the external `marcxml.parse_xml_to_array`. -/
def read_records_marcxml (parsed : Except Str (List Record)) : Except Str ReadResult :=
  match parsed with
  | .error e => .error ("Failed to parse MARCXML: ".data ++ e)
  | .ok rs => .ok ⟨rs, [], 0⟩

/-- The `mrk` branch of `read_records` (`formats.py` lines 80-86). -/
def read_records_mrk (text : Str) : Except Str ReadResult :=
  match parse_mrk_records text with
  | .error e => .error ("Failed to parse MRK: ".data ++ e)
  | .ok rs => .ok ⟨rs, [], 0⟩

/-- The mrk writer puts two spaces between the tag and the two indicator
characters, while the parser consumes the tag plus at most one space, so a
re-parsed data field reads the second space as `indicator1`, the real
`indicator1` as `indicator2`, and the real `indicator2` as the start of the
first subfield chunk. -/
theorem mrk_roundtrip_shift :
    parse_mrk_records (write_mrk_records
      [⟨"00000".data, [.data "245".data '1' '0' [['a'], "Foo".data]]⟩]) =
    Except.ok [⟨"00000".data, [.data "245".data ' ' '1' [['0'], [], ['a'], "Foo".data]]⟩] :=
  rfl

/-- Claim C1 (code bug): decoding the mnemonic-text encoding of a record
list does not return the same list; for a one-record list with a single
data field the decoded record differs from the original. -/
theorem mrk_roundtrip_code_bug :
    parse_mrk_records (write_mrk_records
      [⟨"00000".data, [.data "245".data '1' '0' [['a'], "Foo".data]]⟩]) ≠
    Except.ok [⟨"00000".data, [.data "245".data '1' '0' [['a'], "Foo".data]]⟩] := by
  rw [mrk_roundtrip_shift]
  intro h
  have h2 := Except.ok.inj h
  exact absurd (List.head_eq_of_cons_eq h2) (by decide)

/-- Every well-formed yield of the binary reader loop is kept, in order. -/
theorem mrcLoop_records (ys : List (Option Record)) :
    ∀ idx, (mrcLoop idx ys).1 = ys.filterMap id := by
  induction ys with
  | nil => intro idx; rfl
  | cons y rest ih =>
    intro idx
    cases y with
    | some r => simpa [mrcLoop, List.filterMap_cons] using ih (idx + 1)
    | none => simpa [mrcLoop, List.filterMap_cons] using ih (idx + 1)

/-- The dropped count of the binary reader loop is the number of `None`
yields. -/
theorem mrcLoop_dropped (ys : List (Option Record)) :
    ∀ idx, (mrcLoop idx ys).2.2 = ys.countP (fun o => o.isNone) := by
  induction ys with
  | nil => intro idx; rfl
  | cons y rest ih =>
    intro idx
    cases y with
    | some r => simpa [mrcLoop, List.countP_cons] using ih (idx + 1)
    | none => simp [mrcLoop, List.countP_cons, ih (idx + 1)]

/-- Each `None` yield contributes a warning carrying its position counted
from the enumeration start. -/
theorem mrcLoop_warning_mem (ys : List (Option Record)) :
    ∀ idx i, ys[i]? = some none → mrcWarning (idx + i) ∈ (mrcLoop idx ys).2.1 := by
  induction ys with
  | nil => intro idx i h; simp at h
  | cons y rest ih =>
    intro idx i h
    cases i with
    | zero =>
      simp at h
      subst h
      simp [mrcLoop]
    | succ j =>
      simp at h
      have := ih (idx + 1) j h
      cases y with
      | some r => simpa [mrcLoop, Nat.add_assoc, Nat.add_comm 1 j] using this
      | none =>
        refine List.mem_cons_of_mem _ ?_
        simpa [Nat.add_assoc, Nat.add_comm 1 j] using this

/-- Claim C2 (confirmed): on the binary branch a malformed or empty yield
does not abort the read; every well-formed record before and after it is
returned in order, the dropped count equals the number of bad yields, and
a warning containing the 1-based position of the bad yield is appended. -/
theorem mrc_partial_failure (yields : List (Option Record)) (i : Nat)
    (h : yields[i]? = some none) :
    (read_records_mrc yields).records = yields.filterMap id ∧
    (read_records_mrc yields).dropped = yields.countP (fun o => o.isNone) ∧
    ∃ w ∈ (read_records_mrc yields).warnings, ∃ a b, w = a ++ natStr (i + 1) ++ b := by
  refine ⟨mrcLoop_records yields 1, mrcLoop_dropped yields 1, ?_⟩
  have hm := mrcLoop_warning_mem yields 1 i h
  refine ⟨mrcWarning (1 + i), hm, "Dropped record ".data, ": Empty record".data, ?_⟩
  rw [Nat.add_comm 1 i]
  rfl

/-- Witness for C2 at a concrete three-yield stream whose second yield is
malformed. -/
theorem mrc_partial_failure_witness :
    (read_records_mrc [some ⟨[], []⟩, none, some ⟨['a'], []⟩]).records =
      [⟨[], []⟩, ⟨['a'], []⟩] ∧
    (read_records_mrc [some ⟨[], []⟩, none, some ⟨['a'], []⟩]).dropped = 1 ∧
    ∃ w ∈ (read_records_mrc [some ⟨[], []⟩, none, some ⟨['a'], []⟩]).warnings,
      ∃ a b, w = a ++ natStr 2 ++ b := by
  have h := mrc_partial_failure [some ⟨[], []⟩, none, some ⟨['a'], []⟩] 1 rfl
  exact ⟨h.1.trans (by rfl), h.2.1.trans (by rfl), h.2.2⟩

/-- Claim C3 (confirmed): the marcxml and mrk branches of `read_records`
are all-or-nothing; a parse failure propagates as a single error, and a
successful read always carries empty warnings and a zero dropped count. -/
theorem atomic_read_formats (parsed : Except Str (List Record)) (text : Str) :
    ((∃ e, parsed = Except.error e) →
      ∃ e2, read_records_marcxml parsed = Except.error e2) ∧
    (∀ res, read_records_marcxml parsed = Except.ok res →
      res.warnings = [] ∧ res.dropped = 0) ∧
    ((∃ e, parse_mrk_records text = Except.error e) →
      ∃ e2, read_records_mrk text = Except.error e2) ∧
    (∀ res, read_records_mrk text = Except.ok res →
      res.warnings = [] ∧ res.dropped = 0) := by
  refine ⟨?_, ?_, ?_, ?_⟩
  · rintro ⟨e, rfl⟩
    exact ⟨_, rfl⟩
  · intro res h
    cases parsed with
    | error e => simp [read_records_marcxml] at h
    | ok rs =>
      simp only [read_records_marcxml] at h
      cases h
      exact ⟨rfl, rfl⟩
  · rintro ⟨e, he⟩
    refine ⟨"Failed to parse MRK: ".data ++ e, ?_⟩
    simp [read_records_mrk, he]
  · intro res h
    unfold read_records_mrk at h
    cases hp : parse_mrk_records text with
    | error e => rw [hp] at h; simp at h
    | ok rs =>
      rw [hp] at h
      cases h
      exact ⟨rfl, rfl⟩

/-- Witness for C3: a failing xml parse propagates as an error, and a
successful mrk read of a one-field record has empty warnings and zero
dropped. -/
theorem atomic_read_formats_witness :
    (∃ e2, read_records_marcxml (Except.error "boom".data) = Except.error e2) ∧
    (⟨[⟨pymarcDefaultLeader, [.control "001".data ['x']]⟩], [], 0⟩ : ReadResult).warnings = [] ∧
    (⟨[⟨pymarcDefaultLeader, [.control "001".data ['x']]⟩], [], 0⟩ : ReadResult).dropped = 0 := by
  have h := atomic_read_formats (Except.error "boom".data) "=001 x".data
  have h2 := h.2.2.2 ⟨[⟨pymarcDefaultLeader, [.control "001".data ['x']]⟩], [], 0⟩ rfl
  exact ⟨h.1 ⟨_, rfl⟩, h2.1, h2.2⟩

/-- A successful line step only ever appends to the field list. -/
theorem step_fields_append (acc : MrkAcc) (l : Str) (acc2 : MrkAcc)
    (h : parseMrkLineStep acc l = Except.ok acc2) :
    ∃ suf, acc2.fields = acc.fields ++ suf := by
  unfold parseMrkLineStep at h
  split at h
  · split at h
    · split at h
      · split at h
        · cases h; exact ⟨[], by simp⟩
        · split at h
          · cases h; exact ⟨_, rfl⟩
          · split at h
            · cases h; exact ⟨_, rfl⟩
            · cases h
      · cases h
    · cases h
  · cases h

/-- The whole line loop only ever appends to the field list. -/
theorem process_fields_append (lines : List Str) :
    ∀ acc acc2, processMrkLines acc lines = Except.ok acc2 →
      ∃ suf, acc2.fields = acc.fields ++ suf := by
  induction lines with
  | nil =>
    intro acc acc2 h
    cases h
    exact ⟨[], by simp⟩
  | cons l rest ih =>
    intro acc acc2 h
    unfold processMrkLines at h
    cases hs : parseMrkLineStep acc l with
    | error e => rw [hs] at h; cases h
    | ok acc1 =>
      rw [hs] at h
      obtain ⟨s1, h1⟩ := step_fields_append acc l acc1 hs
      obtain ⟨s2, h2⟩ := ih acc1 acc2 h
      exact ⟨s1 ++ s2, by rw [h2, h1, List.append_assoc]⟩

/-- A line step that sets `seen_field` without adding a field is a leader
line. -/
theorem step_no_field_is_LDR (acc : MrkAcc) (l : Str) (acc2 : MrkAcc)
    (h : parseMrkLineStep acc l = Except.ok acc2)
    (hf : acc2.fields = acc.fields) (hs : acc2.seenField = true)
    (_hs0 : acc.seenField = false) :
    leadsStr "=LDR".data l = true := by
  unfold parseMrkLineStep at h
  split at h
  · split at h
    · rename_i line t1 t2 t3 rest0 heq
      split at h
      · split at h
        · rename_i hldr
          cases h
          have h1 : t1 = 'L' := by simpa using congrArg (fun s => s.headI) hldr
          have h2 : t2 = 'D' := by
            simpa using congrArg (fun s => s.tail.headI) hldr
          have h3 : t3 = 'R' := by
            simpa using congrArg (fun s => s.tail.tail.headI) hldr
          subst h1; subst h2; subst h3
          simp [leadsStr]
        · split at h
          · cases h
            have := congrArg List.length hf
            simp at this
          · split at h
            · cases h
              have := congrArg List.length hf
              simp at this
            · cases h
      · cases h
    · cases h
  · cases h

/-- If the loop succeeds without ever adding a field yet ends with
`seen_field` set, some processed line was a leader line. -/
theorem process_no_field_LDR (lines : List Str) :
    ∀ acc acc2, processMrkLines acc lines = Except.ok acc2 →
      acc2.fields = acc.fields → acc2.seenField = true → acc.seenField = false →
      ∃ l ∈ lines, leadsStr "=LDR".data l = true := by
  induction lines with
  | nil =>
    intro acc acc2 h hf hs hs0
    cases h
    rw [hs] at hs0
    cases hs0
  | cons l rest ih =>
    intro acc acc2 h hf hs hs0
    unfold processMrkLines at h
    cases hstep : parseMrkLineStep acc l with
    | error e => rw [hstep] at h; cases h
    | ok acc1 =>
      rw [hstep] at h
      obtain ⟨s1, h1⟩ := step_fields_append acc l acc1 hstep
      obtain ⟨s2, h2⟩ := process_fields_append rest acc1 acc2 h
      have hlen : s1 = [] ∧ s2 = [] := by
        rw [h1, List.append_assoc] at h2
        have := congrArg List.length (h2.symm.trans hf)
        simp at this
        exact this
      have hf1 : acc1.fields = acc.fields := by rw [h1, hlen.1, List.append_nil]
      by_cases hseen : acc1.seenField = true
      · exact ⟨l, List.mem_cons_self l rest,
          step_no_field_is_LDR acc l acc1 hstep hf1 hseen hs0⟩
      · have hfr : acc2.fields = acc1.fields := by
          rw [h2, hlen.2, List.append_nil]
        obtain ⟨l2, hmem, hl2⟩ :=
          ih acc1 acc2 h hfr hs (Bool.not_eq_true _ ▸ hseen)
        exact ⟨l2, List.mem_cons_of_mem l hmem, hl2⟩

/-- Counterexample to claim C4: a block consisting of a single leader line
parses successfully into a record whose field sequence is empty, because
`parse_mrk_record` sets `seen_field` for the `=LDR` line itself. -/
theorem mrk_zero_fields_counterexample :
    parse_mrk_record ["=LDR  00000".data] = Except.ok ⟨"00000".data, []⟩ ∧
    (⟨"00000".data, []⟩ : Record).fields = [] :=
  ⟨rfl, rfl⟩

/-- Claim C4 (amended): a record decoded successfully by the mnemonic-text
codec has a non-empty field sequence unless its block consists only of
leader lines; a block with zero fields and no leader line is a decode
error. -/
theorem mrk_zero_fields_amended (lines : List Str) (r : Record)
    (h : parse_mrk_record lines = Except.ok r) (hf : r.fields = []) :
    ∃ l ∈ lines, leadsStr "=LDR".data l = true := by
  unfold parse_mrk_record at h
  cases hp : processMrkLines ⟨pymarcDefaultLeader, [], false⟩ lines with
  | error e => rw [hp] at h; cases h
  | ok acc =>
    rw [hp] at h
    have h2 : (if acc.seenField = true then
        (Except.ok ⟨acc.leader, acc.fields⟩ : Except Str Record)
      else Except.error "Record contained no MARC fields.".data) = Except.ok r := h
    by_cases hs : acc.seenField = true
    · rw [if_pos hs] at h2
      cases h2
      exact process_no_field_LDR lines _ acc hp (by simpa using hf) hs rfl
    · rw [if_neg hs] at h2
      cases h2

/-- Witness for the amended C4 at a concrete leader-only block. -/
theorem mrk_zero_fields_amended_witness :
    ∃ l ∈ (["=LDR  00000".data] : List Str), leadsStr "=LDR".data l = true :=
  mrk_zero_fields_amended ["=LDR  00000".data] ⟨"00000".data, []⟩ rfl rfl

/-- Consecutive pairing of the mrk writer: pairing a list with a head pair
peels the pair off. -/
theorem zipPairs_cons_cons (x y : Str) (rest : List Str) :
    zipPairs (x :: y :: rest) = (x, y) :: zipPairs rest := by
  cases rest with
  | nil => rfl
  | cons z zs => rfl

/-- On an odd-length subfield list the even/odd zip of the writer silently
ignores the final unpaired entry. -/
theorem zipPairs_odd : ∀ (l : List Str), l.length % 2 = 1 →
    zipPairs l = zipPairs l.dropLast
  | [], h => absurd h (by simp)
  | [_], _ => rfl
  | x :: y :: rest, h => by
    have hr : rest.length % 2 = 1 := by
      simp only [List.length_cons] at h
      omega
    cases rest with
    | nil => simp at hr
    | cons z zs =>
      have ih := zipPairs_odd (z :: zs) hr
      calc zipPairs (x :: y :: z :: zs)
          = (x, y) :: zipPairs (z :: zs) := zipPairs_cons_cons x y (z :: zs)
        _ = (x, y) :: zipPairs ((z :: zs).dropLast) := by rw [ih]
        _ = zipPairs (x :: y :: (z :: zs).dropLast) :=
              (zipPairs_cons_cons x y ((z :: zs).dropLast)).symm
        _ = zipPairs ((x :: y :: z :: zs).dropLast) := rfl

/-- Python `split` never returns an empty chunk list. -/
theorem splitOnChar_ne_nil (sep : Char) : ∀ (s : Str), splitOnChar sep s ≠ []
  | [], h => by simp [splitOnChar] at h
  | c :: rest, h => by
    unfold splitOnChar at h
    split at h
    · cases h
    · split at h
      · exact splitOnChar_ne_nil sep rest (by assumption)
      · cases h

/-- Splitting across an explicit separator concatenates the two splits. -/
theorem splitOnChar_append_sep (sep : Char) :
    ∀ (xs ys : Str), splitOnChar sep (xs ++ sep :: ys) =
      splitOnChar sep xs ++ splitOnChar sep ys
  | [], ys => by simp [splitOnChar]
  | c :: xs, ys => by
    have ih := splitOnChar_append_sep sep xs ys
    simp only [List.cons_append, splitOnChar, List.append_eq]
    rw [ih]
    by_cases hc : (c == sep) = true
    · simp [hc]
    · rw [Bool.not_eq_true] at hc
      simp only [hc, Bool.false_eq_true, if_false]
      cases hs : splitOnChar sep xs with
      | nil => exact absurd hs (splitOnChar_ne_nil sep xs)
      | cons h t => simp [hs]

/-- The subfield loop is the flattening of the per-chunk pairs. -/
theorem parseSubfields_flat_aux (l : List Str) :
    ∀ acc, l.foldl (fun a chunk => a ++ chunkPairs chunk) acc =
      acc ++ (l.map chunkPairs).flatten := by
  induction l with
  | nil => intro acc; simp
  | cons c rest ih =>
    intro acc
    simp only [List.foldl_cons, List.map_cons, List.flatten_cons]
    rw [ih, List.append_assoc]

/-- Function `parseSubfields` rewritten as a flat map over the split chunks. -/
theorem parseSubfields_flat (s : Str) :
    parseSubfields s = ((splitOnChar '$' s).map chunkPairs).flatten := by
  unfold parseSubfields
  rw [parseSubfields_flat_aux]
  rfl

/-- Counterexample to claim C5: the encode of a data field whose subfield
list has odd length raises nothing and emits exactly the output of the
even-length truncation (the dangling code `b` is silently dropped), and
the decode of a data-field line ending in a dangling `$a` succeeds with an
empty value instead of raising. -/
theorem mrk_dangling_subfield_counterexample :
    write_mrk_records [⟨"00000".data, [.data "245".data '1' '0' [['a'], ['x'], ['b']]]⟩] =
      write_mrk_records [⟨"00000".data, [.data "245".data '1' '0' [['a'], ['x']]]⟩] ∧
    parse_mrk_record ["=245 10$a".data] =
      Except.ok ⟨pymarcDefaultLeader, [.data "245".data '1' '0' [['a'], []]]⟩ :=
  ⟨rfl, rfl⟩

/-- Claim C5 (amended): subfields are serialized as the zipped (code,
value) pairs, so an odd-length subfield list encodes exactly like the list
without its dangling last entry, with no error raised; and the decoder
accepts a dangling subfield code, turning it into a pair with the empty
value, again with no error raised. -/
theorem mrk_dangling_subfield_amended (tag : Str) (i1 i2 : Char)
    (subs : List Str) (s : Str) (c : Char)
    (hodd : subs.length % 2 = 1) (hc : ¬ c == '$') :
    writeField (.data tag i1 i2 subs) = writeField (.data tag i1 i2 subs.dropLast) ∧
    parseSubfields (s ++ ['$', c]) = parseSubfields s ++ [[c], []] := by
  constructor
  · have hw : writeSubfields subs = writeSubfields subs.dropLast := by
      unfold writeSubfields
      rw [zipPairs_odd subs hodd]
    simp [writeField, hw]
  · rw [parseSubfields_flat, parseSubfields_flat,
      show s ++ ['$', c] = s ++ '$' :: [c] from rfl,
      splitOnChar_append_sep '$' s [c]]
    simp only [List.map_append, List.flatten_append]
    congr 1
    simp [splitOnChar, hc, chunkPairs]

/-- Witness for the amended C5 at a one-entry odd subfield list and the
dangling chunk `$b`. -/
theorem mrk_dangling_subfield_amended_witness :
    writeField (.data "245".data '1' '0' [['a']]) =
      writeField (.data "245".data '1' '0' []) ∧
    parseSubfields ['$', 'b'] = [['b'], []] := by
  have h := mrk_dangling_subfield_amended "245".data '1' '0' [['a']] [] 'b'
    (by decide) (by decide)
  exact ⟨h.1.trans (by rfl), h.2.trans (by rfl)⟩

/-- Claim C6 (confirmed): with no extension hint and the XML content rule
not firing, `detect_format` classifies the input as binary exactly when
the sample is longer than 6 bytes, its first 5 bytes are ASCII digits, and
it contains the record-terminator byte 0x1D. -/
theorem detect_binary_content_rule (decode : List Nat → Str) (suffix : Str)
    (sample : List Nat)
    (hext : strLower suffix ∉ [".xml".data, ".mrk".data, ".txt".data, ".mrc".data])
    (hxml : xmlRule (decode sample) = false) :
    detect_format decode suffix sample = Except.ok "mrc".data ↔
      (6 < sample.length ∧ (sample.take 5).all isDigitByte = true ∧
        sample.contains 29 = true) := by
  simp only [List.mem_cons, List.not_mem_nil, or_false, not_or] at hext
  obtain ⟨h1, h2, h3, h4⟩ := hext
  unfold detect_format
  rw [if_neg h1, if_neg (not_or.mpr ⟨h2, h3⟩), if_neg h4,
    if_neg (by rw [hxml]; simp)]
  by_cases hm : mrcRule sample = true
  · rw [if_pos hm]
    unfold mrcRule bytesIsdigit at hm
    simp only [Bool.and_eq_true, decide_eq_true_eq] at hm
    constructor
    · intro _
      refine ⟨?_, ?_, ?_⟩ <;> tauto
    · intro _
      rfl
  · rw [if_neg hm]
    constructor
    · intro hcontra
      by_cases hk : mrkRule (decode sample) = true
      · rw [if_pos hk] at hcontra
        exact absurd (Except.ok.inj hcontra) (by decide)
      · rw [if_neg hk] at hcontra
        cases hcontra
    · rintro ⟨hlen, hall, hcont⟩
      exfalso
      apply hm
      have h5 : (sample.take 5).length = 5 := by
        rw [List.length_take]
        omega
      have hne : (sample.take 5).isEmpty = false := by
        cases htk : sample.take 5 with
        | nil => rw [htk] at h5; simp at h5
        | cons a t => rfl
      unfold mrcRule bytesIsdigit
      simp [hlen, hall, hne]
      simpa using hcont

/-- Witness for C6 at a seven-byte all-digit sample containing 0x1D, with
an extensionless path and an empty decoded text. -/
theorem detect_binary_content_rule_witness :
    detect_format (fun _ => []) [] [48, 48, 48, 48, 48, 48, 29] =
      Except.ok "mrc".data :=
  (detect_binary_content_rule (fun _ => []) [] [48, 48, 48, 48, 48, 48, 29]
    (by decide) rfl).mpr (by decide)

/-- The mnemonic-text trigger as the spec sentence reads: the line begins
with `=LDR`, or consists of `=` followed by exactly three digits and
nothing else (so `=1234` does not qualify). -/
def specMrkLine (l : Str) : Bool :=
  leadsStr "=LDR".data l ||
    (match l with
     | [e, a, b, c] => e == '=' && a.isDigit && b.isDigit && c.isDigit
     | _ => false)

/-- The spec reading of the mnemonic-text content rule, over the first 20
lines of the decoded sample. -/
def specMrkRule (textSample : Str) : Bool :=
  ((pySplitlines textSample).take 20).any specMrkLine

/-- Counterexample to claim C7: on the byte sample `=1234` (no extension
hint, neither the XML nor the binary rule firing) `detect_format` returns
the mnemonic-text tag even though no line begins with `=LDR` or consists
of `=` followed by exactly three digits — the source regex `^=\d{3}` is
unanchored at the right, so four or more digits also trigger it. -/
theorem detect_mrk_rule_counterexample :
    detect_format asciiDecode ".dat".data [61, 49, 50, 51, 52] =
      Except.ok "mrk".data ∧
    specMrkRule (asciiDecode [61, 49, 50, 51, 52]) = false :=
  ⟨rfl, rfl⟩

/-- The source line test, unfolded to its two readable cases. -/
theorem mrkLineTest_iff (l : Str) :
    mrkLineTest l = true ↔
      (leadsStr "=LDR".data l = true ∨
        ∃ a b c t, l = '=' :: a :: b :: c :: t ∧
          a.isDigit = true ∧ b.isDigit = true ∧ c.isDigit = true) := by
  unfold mrkLineTest
  rw [Bool.or_eq_true]
  apply or_congr Iff.rfl
  match l with
  | [] => simp
  | [e] => simp
  | [e, a] => simp
  | [e, a, b] => simp
  | e :: a :: b :: c :: t =>
    simp only [Bool.and_eq_true, beq_iff_eq]
    constructor
    · intro h
      have he : e = '=' := by tauto
      subst he
      exact ⟨a, b, c, t, rfl, by tauto, by tauto, by tauto⟩
    · rintro ⟨a2, b2, c2, t2, heq, ha, hb, hc⟩
      cases heq
      simp [ha, hb, hc]

/-- Claim C7 (amended): with no extension hint and neither the XML nor the
binary rule firing, `detect_format` classifies as mnemonic-text exactly
when one of the first 20 decoded lines begins with `=LDR` or begins with
`=` followed by three ASCII digits — further characters, including further
digits, may follow, so `=1234` also triggers the rule. -/
theorem detect_mrk_rule_amended (decode : List Nat → Str) (suffix : Str)
    (sample : List Nat)
    (hext : strLower suffix ∉ [".xml".data, ".mrk".data, ".txt".data, ".mrc".data])
    (hxml : xmlRule (decode sample) = false)
    (hmrc : mrcRule sample = false) :
    detect_format decode suffix sample = Except.ok "mrk".data ↔
      ∃ l ∈ (pySplitlines (decode sample)).take 20,
        leadsStr "=LDR".data l = true ∨
          ∃ a b c t, l = '=' :: a :: b :: c :: t ∧
            a.isDigit = true ∧ b.isDigit = true ∧ c.isDigit = true := by
  simp only [List.mem_cons, List.not_mem_nil, or_false, not_or] at hext
  obtain ⟨h1, h2, h3, h4⟩ := hext
  unfold detect_format
  rw [if_neg h1, if_neg (not_or.mpr ⟨h2, h3⟩), if_neg h4,
    if_neg (by rw [hxml]; simp), if_neg (by rw [hmrc]; simp)]
  by_cases hk : mrkRule (decode sample) = true
  · rw [if_pos hk]
    constructor
    · intro _
      unfold mrkRule at hk
      rw [List.any_eq_true] at hk
      obtain ⟨l, hmem, hl⟩ := hk
      exact ⟨l, hmem, (mrkLineTest_iff l).mp hl⟩
    · intro _
      rfl
  · rw [if_neg hk]
    constructor
    · intro hcontra
      cases hcontra
    · rintro ⟨l, hmem, hl⟩
      exfalso
      apply hk
      unfold mrkRule
      rw [List.any_eq_true]
      exact ⟨l, hmem, (mrkLineTest_iff l).mpr hl⟩

/-- Witness for the amended C7 at the concrete sample `=1234`. -/
theorem detect_mrk_rule_amended_witness :
    detect_format asciiDecode ".dat".data [61, 49, 50, 51, 52] =
      Except.ok "mrk".data :=
  (detect_mrk_rule_amended asciiDecode ".dat".data [61, 49, 50, 51, 52]
    (by decide) rfl rfl).mpr
    ⟨"=1234".data, by decide, Or.inr ⟨'1', '2', '3', ['4'], rfl, rfl, rfl, rfl⟩⟩

/-- Claim C8 (confirmed): on a mnemonic-text line whose three-character
tag is neither the leader marker nor a `00`-tag, the decoder raises the
missing-indicators error when fewer than two characters follow the tag
token and its separator, and otherwise takes the first two following
characters as the two indicators of the resulting data field. -/
theorem mrk_missing_indicators (acc : MrkAcc) (t1 t2 t3 : Char) (rest0 : Str)
    (hw1 : isWordChar t1 = true) (hw2 : isWordChar t2 = true)
    (hw3 : isWordChar t3 = true)
    (hldr : ([t1, t2, t3] : Str) ≠ ['L', 'D', 'R'])
    (hctl : ¬(t1 = '0' ∧ t2 = '0')) :
    ((dropOneSpace rest0).length < 2 →
      parseMrkLineStep acc ('=' :: t1 :: t2 :: t3 :: rest0) =
        Except.error ("Missing indicators for tag ".data ++ [t1, t2, t3])) ∧
    (∀ i1 i2 subs, dropOneSpace rest0 = i1 :: i2 :: subs →
      parseMrkLineStep acc ('=' :: t1 :: t2 :: t3 :: rest0) =
        Except.ok ⟨acc.leader,
          acc.fields ++ [.data [t1, t2, t3] i1 i2 (parseSubfields subs)],
          true⟩) := by
  have hz : leadsStr ['0', '0'] [t1, t2, t3] = false := by
    simp only [leadsStr]
    by_contra hcon
    rw [Bool.not_eq_false] at hcon
    simp only [Bool.and_eq_true, beq_iff_eq] at hcon
    obtain ⟨ha, hb, _⟩ := hcon
    exact hctl ⟨ha.symm, hb.symm⟩
  have hstep : parseMrkLineStep acc ('=' :: t1 :: t2 :: t3 :: rest0) =
      (match dropOneSpace rest0 with
       | i1 :: i2 :: subs =>
         Except.ok ⟨acc.leader,
           acc.fields ++ [.data [t1, t2, t3] i1 i2 (parseSubfields subs)], true⟩
       | _ => Except.error ("Missing indicators for tag ".data ++ [t1, t2, t3])) := by
    unfold parseMrkLineStep
    rw [if_pos (by simp [leadsStr])]
    simp only [hw1, hw2, hw3, Bool.and_self, if_true, if_neg hldr, hz,
      Bool.false_eq_true, if_false]
  constructor
  · intro hlen
    rw [hstep]
    cases hd : dropOneSpace rest0 with
    | nil => rfl
    | cons i1 t =>
      cases t with
      | nil => rfl
      | cons i2 subs =>
        rw [hd] at hlen
        simp at hlen
        omega
  · intro i1 i2 subs hd
    rw [hstep, hd]

/-- Witness for C8: tag 245 with nothing after the tag raises the
missing-indicators error; with ` 10$ax` following, `1` and `0` become the
two indicators. -/
theorem mrk_missing_indicators_witness :
    parseMrkLineStep ⟨[], [], false⟩ "=245".data =
      Except.error "Missing indicators for tag 245".data ∧
    parseMrkLineStep ⟨[], [], false⟩ "=245 10$ax".data =
      Except.ok ⟨[], [.data "245".data '1' '0' [['a'], ['x']]], true⟩ := by
  have h1 := mrk_missing_indicators ⟨[], [], false⟩ '2' '4' '5' []
    rfl rfl rfl (by decide) (by decide)
  have h2 := mrk_missing_indicators ⟨[], [], false⟩ '2' '4' '5' " 10$ax".data
    rfl rfl rfl (by decide) (by decide)
  exact ⟨(h1.1 (by decide)).trans (by rfl),
    (h2.2 '1' '0' "$ax".data rfl).trans (by rfl)⟩

/-- A successful effectful map preserves the list length. -/
theorem mapExcept_ok_length (f : α → Except ε β) :
    ∀ (l : List α) (r : List β), mapExcept f l = Except.ok r →
      r.length = l.length := by
  intro l
  induction l with
  | nil =>
    intro r h
    cases h
    rfl
  | cons a rest ih =>
    intro r h
    unfold mapExcept at h
    cases hf : f a with
    | error e => rw [hf] at h; cases h
    | ok b =>
      rw [hf] at h
      cases hr : mapExcept f rest with
      | error e => rw [hr] at h; cases h
      | ok bs =>
        rw [hr] at h
        cases h
        simp [ih bs hr]

/-- Claim C9 (confirmed): a mnemonic-text input whose line-splitting
yields zero non-blank blocks is a decode error, and a successful mrk read
never returns an empty record list. -/
theorem mrk_empty_input (text : Str) :
    (buildBlocks (pySplitlines text) = [] →
      ∃ e, read_records_mrk text = Except.error e) ∧
    (∀ res, read_records_mrk text = Except.ok res → res.records ≠ []) := by
  constructor
  · intro hb
    refine ⟨"Failed to parse MRK: No MRK records found.".data, ?_⟩
    unfold read_records_mrk parse_mrk_records
    rw [hb]
    rfl
  · intro res h hempty
    unfold read_records_mrk at h
    cases hp : parse_mrk_records text with
    | error e => rw [hp] at h; cases h
    | ok rs =>
      rw [hp] at h
      cases h
      unfold parse_mrk_records at hp
      by_cases hb : (buildBlocks (pySplitlines text)).isEmpty = true
      · rw [if_pos hb] at hp
        cases hp
      · rw [if_neg hb] at hp
        have hlen := mapExcept_ok_length parse_mrk_record _ _ hp
        apply hb
        rw [List.isEmpty_iff, ← List.length_eq_zero]
        have hempty2 : rs = [] := hempty
        rw [hempty2] at hlen
        simpa using hlen.symm

/-- Witness for C9: the empty input fails, and the one-block input
`=001 x` yields a non-empty record list. -/
theorem mrk_empty_input_witness :
    (∃ e, read_records_mrk [] = Except.error e) ∧
    ([⟨pymarcDefaultLeader, [.control "001".data ['x']]⟩] : List Record) ≠ [] := by
  refine ⟨(mrk_empty_input []).1 rfl, ?_⟩
  exact (mrk_empty_input "=001 x".data).2
    ⟨[⟨pymarcDefaultLeader, [.control "001".data ['x']]⟩], [], 0⟩ rfl

/-- Claim C10 (confirmed): when the lower-cased extension is one of the
four hints, `detect_format` answers from the extension alone — `.xml` to
marcxml, `.mrk` and `.txt` to mrk, `.mrc` to mrc — and the answer is the
same whatever the sample bytes or the decoder, i.e. no content is
consulted. -/
theorem detect_extension_hint (decode decode2 : List Nat → Str) (suffix : Str)
    (s1 s2 : List Nat) :
    (strLower suffix = ".xml".data →
      detect_format decode suffix s1 = Except.ok "marcxml".data) ∧
    ((strLower suffix = ".mrk".data ∨ strLower suffix = ".txt".data) →
      detect_format decode suffix s1 = Except.ok "mrk".data) ∧
    (strLower suffix = ".mrc".data →
      detect_format decode suffix s1 = Except.ok "mrc".data) ∧
    (strLower suffix ∈ [".xml".data, ".mrk".data, ".txt".data, ".mrc".data] →
      detect_format decode suffix s1 = detect_format decode2 suffix s2) := by
  refine ⟨?_, ?_, ?_, ?_⟩
  · intro h
    unfold detect_format
    rw [if_pos h]
  · intro h
    unfold detect_format
    have hx : ¬ strLower suffix = ".xml".data := by
      rcases h with h | h <;> rw [h] <;> decide
    rw [if_neg hx, if_pos h]
  · intro h
    unfold detect_format
    rw [h]
    rfl
  · intro h
    simp only [List.mem_cons, List.not_mem_nil, or_false] at h
    unfold detect_format
    rcases h with h | h | h | h <;> rw [h] <;> rfl

/-- Witness for C10: an upper-cased `.XML` extension resolves by the hint
alone. -/
theorem detect_extension_hint_witness :
    detect_format (fun _ => []) ".XML".data [1, 2, 3] = Except.ok "marcxml".data :=
  (detect_extension_hint (fun _ => []) (fun _ => []) ".XML".data [1, 2, 3] []).1
    (by decide)
